import Mathlib

/-!
Verification of the stock-api repository (`app/services/stock_service.py`,
`app/utils/indicators.py`, `app/models/stock.py`, `app/services/provider.py`).

Modelling conventions:
* Python strings are modelled as `List Char`.
* IEEE-754 floating point arithmetic (pandas/numpy) is idealised as exact
  rational arithmetic over `ℚ`; `math.sqrt` has no rational counterpart, so
  Bollinger's standard deviation takes the square-root map as a parameter.
* Dates handled as `YYYY-MM-DD` strings are modelled either as canonical
  strings (`List Char`) where only equality matters, or as integer day
  numbers (`ℤ`) where calendar arithmetic (`timedelta`) and ordering matter;
  lexicographic comparison of ISO date strings agrees with day-number order.
* The SQLAlchemy session is modelled as explicit state passing over lists of
  rows; `query(...).first()` is `List.find?`, `db.add` appends,
  in-place mutation of a fetched row rewrites the first matching row.
* `redis` calls and provider network calls are oracles passed as arguments;
  a Python call that may raise is an `Except`-valued oracle, and a function
  that raises on some input returns `Option` (`none` = uncaught exception).
-/

/-- Python `str` modelled as its list of characters. -/
abbrev PyStr := List Char

/-- Python `s.startswith(p)` on the character-list model. -/
def pyStartsWith : PyStr → PyStr → Bool
  | _, [] => true
  | [], _ :: _ => false
  | c :: s, d :: p => c == d && pyStartsWith s p

/-- Python `s.endswith(p)` on the character-list model. -/
def pyEndsWith (s p : PyStr) : Bool :=
  pyStartsWith s.reverse p.reverse

/-- Python `s.isdigit()` restricted to ASCII digits: `False` on the empty
string, else true iff every character is a digit. -/
def pyIsDigit (s : PyStr) : Bool :=
  !s.isEmpty && s.all Char.isDigit

/-- Python `s.split(".")[0]`: the part of `s` before the first `'.'`
(the whole of `s` when there is no dot). -/
def pySplitDotHead (s : PyStr) : PyStr :=
  s.takeWhile (fun c => c != '.')

/-- `StockService._normalize_code` (stock_service.py lines 19-26):
strip a legacy `sh`/`sz` prefix from an 8-character all-digit tail,
else strip a `.SS`/`.SZ` YFinance suffix, else return unchanged. -/
def _normalize_code (symbol : PyStr) : PyStr :=
  if (pyStartsWith symbol ['s','h'] || pyStartsWith symbol ['s','z'])
      && pyIsDigit (symbol.drop 2) && symbol.length == 8 then
    symbol.drop 2
  else if pyEndsWith symbol ['.','S','S'] || pyEndsWith symbol ['.','S','Z'] then
    pySplitDotHead symbol
  else
    symbol

-- Sanity checks of the translation against the comments in the source.
example : _normalize_code ['s','h','6','0','0','0','0','0'] = ['6','0','0','0','0','0'] := by decide
example : _normalize_code ['A','A','P','L'] = ['A','A','P','L'] := by decide
example : _normalize_code ['6','0','0','0','0','0','.','S','S'] = ['6','0','0','0','0','0'] := by decide

/-- If the prefix-stripped part of a string passes Python's `isdigit`,
its first characters are digits; in particular the result of rule 1
cannot start with `sh`/`sz` again. -/
theorem pyStartsWith_cons (c : Char) (s : PyStr) (d : Char) (p : PyStr) :
    pyStartsWith (c :: s) (d :: p) = (c == d && pyStartsWith s p) := rfl

theorem pyStartsWith_of_takeWhile (p : Char → Bool) (l pat : PyStr)
    (h : pyStartsWith (l.takeWhile p) pat = true) : pyStartsWith l pat = true := by
  induction l generalizing pat with
  | nil =>
    simpa using h
  | cons c t ih =>
    cases pat with
    | nil => rfl
    | cons d q =>
      rw [List.takeWhile_cons] at h
      cases hp : p c with
      | false =>
        rw [hp] at h
        simp only [Bool.false_eq_true, if_false] at h
        simp [pyStartsWith] at h
      | true =>
        rw [hp] at h
        simp only [if_true] at h
        rw [pyStartsWith_cons] at h ⊢
        rw [Bool.and_eq_true] at h ⊢
        exact ⟨h.1, ih q h.2⟩

theorem mem_of_mem_takeWhile {p : Char → Bool} {l : PyStr} {c : Char}
    (h : c ∈ l.takeWhile p) : p c = true := by
  induction l with
  | nil => simp [List.takeWhile] at h
  | cons a t ih =>
    simp only [List.takeWhile] at h
    cases hp : p a with
    | false => simp [hp] at h
    | true =>
      rw [hp] at h
      rcases List.mem_cons.mp h with h1 | h2
      · simpa [h1] using hp
      · exact ih h2

/-- A string of digits never starts with a pattern whose first character is
not a digit. -/
theorem startsWith_false_of_digits {l : PyStr} (hall : ∀ c ∈ l, c.isDigit = true)
    {d : Char} (hdnot : d.isDigit = false) (q : PyStr) :
    pyStartsWith l (d :: q) = false := by
  cases l with
  | nil => rfl
  | cons c t =>
    rw [pyStartsWith_cons]
    cases hcd : c == d with
    | false => simp
    | true =>
      have hc := hall c (List.mem_cons_self c t)
      have hcd' : c = d := eq_of_beq hcd
      rw [hcd'] at hc
      simp [hc] at hdnot

/-- The characters of a string passing Python's `isdigit` are all digits. -/
theorem all_digits_of_pyIsDigit {s : PyStr} (hd : pyIsDigit s = true) :
    ∀ c ∈ s, c.isDigit = true := by
  simp only [pyIsDigit, Bool.and_eq_true, List.all_eq_true] at hd
  exact hd.2

/-- An all-digit nonempty string starts with neither `sh` nor `sz`. -/
theorem digits_not_sh_sz {s : PyStr} (hd : pyIsDigit s = true) :
    pyStartsWith s ['s','h'] = false ∧ pyStartsWith s ['s','z'] = false :=
  ⟨startsWith_false_of_digits (all_digits_of_pyIsDigit hd) (by decide) _,
   startsWith_false_of_digits (all_digits_of_pyIsDigit hd) (by decide) _⟩

/-- An all-digit string contains no dot, hence ends with neither `.SS` nor `.SZ`. -/
theorem digits_not_dot_suffix {s : PyStr} (hd : pyIsDigit s = true) :
    pyEndsWith s ['.','S','S'] = false ∧ pyEndsWith s ['.','S','Z'] = false := by
  have hrev : ∀ c ∈ s.reverse, c.isDigit = true := by
    intro c hc
    exact all_digits_of_pyIsDigit hd c (List.mem_reverse.mp hc)
  constructor
  · show pyStartsWith s.reverse ['S','S','.'] = false
    exact startsWith_false_of_digits hrev (by decide) _
  · show pyStartsWith s.reverse ['Z','S','.'] = false
    exact startsWith_false_of_digits hrev (by decide) _

/-- A prefix's characters are members of the string. -/
theorem mem_of_pyStartsWith {l pat : PyStr} (h : pyStartsWith l pat = true) :
    ∀ c ∈ pat, c ∈ l := by
  induction l generalizing pat with
  | nil =>
    cases pat with
    | nil => intro c hc; simp at hc
    | cons d q => simp [pyStartsWith] at h
  | cons a t ih =>
    cases pat with
    | nil => intro c hc; simp at hc
    | cons d q =>
      rw [pyStartsWith_cons, Bool.and_eq_true] at h
      intro c hc
      rcases List.mem_cons.mp hc with h1 | h2
      · have : a = d := eq_of_beq h.1
        rw [h1, ← this]
        exact List.mem_cons_self a t
      · exact List.mem_cons_of_mem a (ih h.2 c h2)

/-- All-digit inputs are fixed points of `_normalize_code`. -/
theorem _normalize_code_fix_of_digits {r : PyStr} (hd : pyIsDigit r = true) :
    _normalize_code r = r := by
  unfold _normalize_code
  rw [(digits_not_sh_sz hd).1, (digits_not_sh_sz hd).2,
      (digits_not_dot_suffix hd).1, (digits_not_dot_suffix hd).2]
  simp

theorem _normalize_code_rule1 {s : PyStr}
    (h : ((pyStartsWith s ['s','h'] || pyStartsWith s ['s','z'])
      && pyIsDigit (s.drop 2) && s.length == 8) = true) :
    _normalize_code s = s.drop 2 := by
  unfold _normalize_code
  simp [h]

theorem _normalize_code_rule2 {s : PyStr}
    (h1 : ((pyStartsWith s ['s','h'] || pyStartsWith s ['s','z'])
      && pyIsDigit (s.drop 2) && s.length == 8) = false)
    (h2 : (pyEndsWith s ['.','S','S'] || pyEndsWith s ['.','S','Z']) = true) :
    _normalize_code s = pySplitDotHead s := by
  unfold _normalize_code
  simp [h1, h2]

theorem _normalize_code_rule3 {s : PyStr}
    (h1 : ((pyStartsWith s ['s','h'] || pyStartsWith s ['s','z'])
      && pyIsDigit (s.drop 2) && s.length == 8) = false)
    (h2 : (pyEndsWith s ['.','S','S'] || pyEndsWith s ['.','S','Z']) = false) :
    _normalize_code s = s := by
  unfold _normalize_code
  simp [h1, h2]

/-- The head-before-the-first-dot of a string that starts with neither `sh`
nor `sz` is a fixed point of `_normalize_code`. -/
theorem _normalize_code_fix_splitDotHead {s : PyStr}
    (hsh : pyStartsWith s ['s','h'] = false) (hsz : pyStartsWith s ['s','z'] = false) :
    _normalize_code (pySplitDotHead s) = pySplitDotHead s := by
  set r := pySplitDotHead s with hr
  have hr_sh : pyStartsWith r ['s','h'] = false := by
    cases h : pyStartsWith r ['s','h'] with
    | false => rfl
    | true => rw [pyStartsWith_of_takeWhile _ s _ h] at hsh; exact hsh
  have hr_sz : pyStartsWith r ['s','z'] = false := by
    cases h : pyStartsWith r ['s','z'] with
    | false => rfl
    | true => rw [pyStartsWith_of_takeWhile _ s _ h] at hsz; exact hsz
  have hnodot : ∀ c ∈ r, (c != '.') = true := by
    intro c hc
    rw [hr] at hc
    unfold pySplitDotHead at hc
    have h2 := mem_of_mem_takeWhile (l := s) hc
    simpa using h2
  have hend : ∀ (q : PyStr), pyEndsWith r ('.' :: q) = false := by
    intro q
    cases h : pyEndsWith r ('.' :: q) with
    | false => rfl
    | true =>
      exfalso
      unfold pyEndsWith at h
      have hmem : '.' ∈ r.reverse := by
        apply mem_of_pyStartsWith h
        have : ('.' :: q).reverse = q.reverse ++ ['.'] := by simp
        rw [this]
        exact List.mem_append_right _ (List.mem_singleton.mpr rfl)
      have := hnodot '.' (List.mem_reverse.mp hmem)
      simp at this
  unfold _normalize_code
  rw [hr_sh, hr_sz, hend, hend]
  simp

/-- C1 counterexample: the claim "`_normalize_code` is idempotent for every
input string" is false. For the input `"sh123456.SS"` one application strips
the `.SS` suffix yielding `"sh123456"`, and a second application strips the
`sh` prefix yielding `"123456"`, so applying the function twice differs from
applying it once. -/
theorem C1_normalize_not_idempotent_cex :
    ¬ (_normalize_code (_normalize_code
        ['s','h','1','2','3','4','5','6','.','S','S'])
      = _normalize_code ['s','h','1','2','3','4','5','6','.','S','S']) := by
  decide

/-- C1 (amended): `_normalize_code` is idempotent on every input that does
not simultaneously carry a legacy `sh`/`sz` prefix and a `.SS`/`.SZ`
suffix; only inputs combining both notations (such as `"sh123456.SS"`) can
require two passes. -/
theorem C1_normalize_idempotent (s : PyStr)
    (h : ((pyStartsWith s ['s','h'] || pyStartsWith s ['s','z'])
      && (pyEndsWith s ['.','S','S'] || pyEndsWith s ['.','S','Z'])) = false) :
    _normalize_code (_normalize_code s) = _normalize_code s := by
  cases hg1 : ((pyStartsWith s ['s','h'] || pyStartsWith s ['s','z'])
      && pyIsDigit (s.drop 2) && s.length == 8) with
  | true =>
    rw [_normalize_code_rule1 hg1]
    have hd : pyIsDigit (s.drop 2) = true := by
      rw [Bool.and_assoc, Bool.and_eq_true, Bool.and_eq_true] at hg1
      exact hg1.2.1
    exact _normalize_code_fix_of_digits hd
  | false =>
    cases hg2 : (pyEndsWith s ['.','S','S'] || pyEndsWith s ['.','S','Z']) with
    | true =>
      rw [_normalize_code_rule2 hg1 hg2]
      have hpre : (pyStartsWith s ['s','h'] || pyStartsWith s ['s','z']) = false := by
        cases hp : (pyStartsWith s ['s','h'] || pyStartsWith s ['s','z']) with
        | false => rfl
        | true => rw [hp, hg2] at h; simp at h
      rw [Bool.or_eq_false_iff] at hpre
      exact _normalize_code_fix_splitDotHead hpre.1 hpre.2
    | false =>
      rw [_normalize_code_rule3 hg1 hg2, _normalize_code_rule3 hg1 hg2]

/-- Witness for C1 (amended) at the concrete input `"sh600000"`. -/
theorem C1_normalize_idempotent_witness :
    _normalize_code (_normalize_code ['s','h','6','0','0','0','0','0'])
      = _normalize_code ['s','h','6','0','0','0','0','0'] :=
  C1_normalize_idempotent ['s','h','6','0','0','0','0','0'] (by decide)

/-!
## Indicator engine (`app/utils/indicators.py`)

Price series are the `close` column of the DataFrame, modelled as `List ℚ`.
`NaN` cells of a pandas Series are modelled as `none`.
-/

/-- Pandas `series.rolling(window=w).mean()`: the arithmetic mean of the
trailing `w` entries ending at index `i`, `NaN` (`none`) while fewer than
`w` entries are available (`min_periods` defaults to the window size). -/
def rollingMean (close : List ℚ) (window : ℕ) : List (Option ℚ) :=
  (List.range close.length).map (fun i =>
    if i + 1 < window then none
    else some ((((close.take (i+1)).drop (i+1-window)).sum) / window))

/-- `calculate_ma` (indicators.py lines 4-6): `df['close'].rolling(window=window).mean()`. -/
def calculate_ma (close : List ℚ) (window : ℕ) : List (Option ℚ) :=
  rollingMean close window

/-- One step of pandas `ewm(span, adjust=False).mean()` after the seed:
each new value moves the running average by `a * (value - previous)`. -/
def emaGo (a : ℚ) (prev : ℚ) : List ℚ → List ℚ
  | [] => []
  | v :: vs => (prev + a * (v - prev)) :: emaGo a (prev + a * (v - prev)) vs

/-- Pandas `series.ewm(span=span, adjust=False).mean()`: recursive
exponential average seeded with the first value, `a = 2/(span+1)`. -/
def ewmMean (span : ℕ) (vs : List ℚ) : List ℚ :=
  match vs with
  | [] => []
  | v :: rest => v :: emaGo (2 / ((span : ℚ) + 1)) v rest

/-- `calculate_macd` (indicators.py lines 8-19): returns the columns
(`dif`, `dea`, `macd`) = (EMA12−EMA26, EMA(dif,9), (dif−dea)*2). -/
def calculate_macd (close : List ℚ) : List ℚ × List ℚ × List ℚ :=
  let exp1 := ewmMean 12 close
  let exp2 := ewmMean 26 close
  let macd := List.zipWith (· - ·) exp1 exp2
  let signal_line := ewmMean 9 macd
  let hist := List.zipWith (· - ·) macd signal_line
  (macd, signal_line, hist.map (· * 2))

/-- Pandas `series.rolling(window=w).std()`: trailing sample standard
deviation (`ddof = 1`), `NaN` while fewer than `w` entries are available.
The square root on floats is taken as the parameter `sqrtQ`. -/
def rollingStd (sqrtQ : ℚ → ℚ) (close : List ℚ) (window : ℕ) : List (Option ℚ) :=
  (List.range close.length).map (fun i =>
    if i + 1 < window then none
    else
      let seg := (close.drop (i+1-window)).take window
      let m := seg.sum / window
      some (sqrtQ ((seg.map (fun x => (x - m)^2)).sum / ((window : ℚ) - 1))))

/-- `calculate_boll` (indicators.py lines 21-31) with `window=20`,
`num_std=2`: `mid = rolling mean`, `upper/lower = mid ± std*num_std`
(`NaN` in either operand propagates). -/
def calculate_boll (sqrtQ : ℚ → ℚ) (close : List ℚ) (window : ℕ) (num_std : ℕ) :
    List (Option ℚ) × List (Option ℚ) × List (Option ℚ) :=
  let mid := rollingMean close window
  let std := rollingStd sqrtQ close window
  let upper := List.zipWith (Option.map₂ (fun m s => m + s * (num_std : ℚ))) mid std
  let lower := List.zipWith (Option.map₂ (fun m s => m - s * (num_std : ℚ))) mid std
  (mid, upper, lower)

/-- The emitted TD value for a counter pair: the positive buy counter if
it is nonzero, else the negated sell counter if nonzero, else 0. -/
def tdEmit (bs : ℕ × ℕ) : ℤ :=
  if 0 < bs.1 then (bs.1 : ℤ) else if 0 < bs.2 then -(bs.2 : ℤ) else 0

/-- The loop body state update of `calculate_td9`: compare `close[i]` with
`close[i-4]` and update the (buy, sell) counters. -/
def tdStep (c c4 : ℚ) (bs : ℕ × ℕ) : ℕ × ℕ :=
  if c < c4 then (bs.1 + 1, 0)
  else if c4 < c then (0, bs.2 + 1)
  else (0, 0)

/-- The `for i in range(4, len(df))` loop of `calculate_td9`, carrying the
buy/sell counters and emitting one value per index. -/
def td9Go (close : List ℚ) (bs : ℕ × ℕ) : List ℕ → List ℤ
  | [] => []
  | i :: rest =>
    let c := close.getD i 0
    let c4 := close.getD (i - 4) 0
    let bs2 := tdStep c c4 bs
    tdEmit bs2 :: td9Go close bs2 rest

/-- `calculate_td9` (indicators.py lines 33-78): zero for the first four
rows (and everywhere when fewer than five rows exist), then the emitted
counter values of the sequential loop over indices `4 .. len-1`. -/
def calculate_td9 (close : List ℚ) : List ℤ :=
  if close.length < 5 then List.replicate close.length 0
  else List.replicate 4 0
    ++ td9Go close (0, 0) ((List.range (close.length - 4)).map (· + 4))

-- Sanity check: indicator example rows from the spec.
example : calculate_ma [10,11,12,13,14] 3 = [none, none, some 11, some 12, some 13] := by
  simp [calculate_ma, rollingMean, List.range_succ]
  norm_num
example : calculate_td9 [10,9,8,7,6,5,4,3,2] = [0,0,0,0,1,2,3,4,5] := by
  simp [calculate_td9, List.range_succ, td9Go, tdStep, tdEmit]
  norm_num [td9Go, tdStep, tdEmit]

/-- Index lookup in a map over `List.range`. -/
theorem getD_map_range {α : Type} (f : ℕ → α) (n j : ℕ) (hj : j < n) (d : α) :
    ((List.range n).map f).getD j d = f j := by
  simp [List.getD, List.getElem?_map, List.getElem?_range hj]

/-- C6: the moving-average column is null for the first `window-1` rows and
is the exact arithmetic mean of the trailing `window` closes afterwards;
on closes `[10,11,12,13,14]`, `MA(3)` is `[null, null, 11, 12, 13]`. -/
theorem C6_moving_average (close : List ℚ) (window : ℕ) (hw : 1 ≤ window) :
    ((calculate_ma close window).length = close.length
      ∧ (∀ i, i < close.length → i + 1 < window →
          (calculate_ma close window).getD i (some 0) = none)
      ∧ (∀ i, i < close.length → window ≤ i + 1 →
          (calculate_ma close window).getD i none
            = some (((close.drop (i+1-window)).take window).sum / window)))
    ∧ calculate_ma [10,11,12,13,14] 3 = [none, none, some 11, some 12, some 13] := by
  constructor
  · refine ⟨?_, ?_, ?_⟩
    · simp [calculate_ma, rollingMean]
    · intro i hi hlt
      unfold calculate_ma rollingMean
      rw [getD_map_range _ _ _ hi]
      simp [hlt]
    · intro i hi hge
      unfold calculate_ma rollingMean
      rw [getD_map_range _ _ _ hi]
      have hnot : ¬ (i + 1 < window) := by omega
      simp only [hnot, if_false]
      have hdt : (close.take (i+1)).drop (i+1-window)
          = (close.drop (i+1-window)).take ((i+1) - (i+1-window)) := by
        rw [List.drop_take]
      have harith : (i+1) - (i+1-window) = window := by omega
      rw [hdt, harith]
  · simp [calculate_ma, rollingMean, List.range_succ]
    norm_num

/-- Witness for C6 at closes `[10,11,12,13,14]`, window 3. -/
theorem C6_moving_average_witness :
    calculate_ma [10,11,12,13,14] 3 = [none, none, some 11, some 12, some 13] :=
  (C6_moving_average [10,11,12,13,14] 3 (by decide)).2

theorem emaGo_length (a p : ℚ) (l : List ℚ) : (emaGo a p l).length = l.length := by
  induction l generalizing p with
  | nil => rfl
  | cons v vs ih => simp [emaGo, ih]

theorem ewmMean_length (span : ℕ) (vs : List ℚ) : (ewmMean span vs).length = vs.length := by
  cases vs with
  | nil => rfl
  | cons v rest => simp [ewmMean, emaGo_length]

/-- The running exponential average satisfies the one-step recurrence at
every position after the first. -/
theorem emaGo_getD_succ (a : ℚ) (p : ℚ) (l : List ℚ) (i : ℕ) (hi : i + 1 < l.length) :
    (emaGo a p l).getD (i+1) 0
      = (emaGo a p l).getD i 0 + a * (l.getD (i+1) 0 - (emaGo a p l).getD i 0) := by
  induction l generalizing p i with
  | nil => simp at hi
  | cons v vs ih =>
    cases i with
    | zero =>
      cases vs with
      | nil => simp at hi
      | cons w ws => simp [emaGo, List.getD]
    | succ j =>
      have hj : j + 1 < vs.length := by simpa using hi
      simp only [emaGo, List.getD_cons_succ]
      exact ih (p + a * (v - p)) j hj

/-- `ewmMean` is seeded by the first value. -/
theorem ewmMean_getD_zero (span : ℕ) (v : ℚ) (rest : List ℚ) :
    (ewmMean span (v :: rest)).getD 0 0 = v := rfl

/-- `ewmMean` satisfies the `adjust=False` recurrence
`EMA_(i+1) = EMA_i + a * (v_(i+1) - EMA_i)` with `a = 2/(span+1)`. -/
theorem ewmMean_getD_succ (span : ℕ) (vs : List ℚ) (i : ℕ) (hi : i + 1 < vs.length) :
    (ewmMean span vs).getD (i+1) 0
      = (ewmMean span vs).getD i 0
        + (2 / ((span : ℚ) + 1)) * (vs.getD (i+1) 0 - (ewmMean span vs).getD i 0) := by
  cases vs with
  | nil => simp at hi
  | cons v rest =>
    cases i with
    | zero =>
      cases rest with
      | nil => simp at hi
      | cons w ws => simp [ewmMean, emaGo, List.getD]
    | succ j =>
      have hj : j + 1 < rest.length := by simpa using hi
      simp only [ewmMean, List.getD_cons_succ]
      exact emaGo_getD_succ _ v rest j hj

/-- C7: for every non-empty close series, `calculate_macd` produces
`dif = EMA(close,12) - EMA(close,26)` (componentwise), `dea = EMA(dif,9)`
and `macd = (dif - dea) * 2`, where each `EMA(·, span)` is the recursive
exponential average seeded with the first value: `EMA_0 = value_0` and
`EMA_(i+1) = EMA_i + a*(value_(i+1) - EMA_i)` with `a = 2/(span+1)`. -/
theorem C7_macd (close : List ℚ) (h : close ≠ []) :
    ((calculate_macd close).1
        = List.zipWith (· - ·) (ewmMean 12 close) (ewmMean 26 close)
      ∧ (calculate_macd close).2.1 = ewmMean 9 (calculate_macd close).1
      ∧ (calculate_macd close).2.2
          = (List.zipWith (· - ·) (calculate_macd close).1
              (calculate_macd close).2.1).map (· * 2))
    ∧ ∀ (span : ℕ) (vs : List ℚ), vs ≠ [] →
        ((ewmMean span vs).length = vs.length
          ∧ (ewmMean span vs).getD 0 0 = vs.getD 0 0
          ∧ ∀ i, i + 1 < vs.length →
              (ewmMean span vs).getD (i+1) 0
                = (ewmMean span vs).getD i 0
                  + (2 / ((span : ℚ) + 1))
                    * (vs.getD (i+1) 0 - (ewmMean span vs).getD i 0)) := by
  refine ⟨⟨rfl, rfl, rfl⟩, ?_⟩
  intro span vs hvs
  refine ⟨ewmMean_length span vs, ?_, fun i hi => ewmMean_getD_succ span vs i hi⟩
  cases vs with
  | nil => exact absurd rfl hvs
  | cons v rest => rfl

/-- Witness for C7 at closes `[1, 2]`. -/
theorem C7_macd_witness :
    (calculate_macd [1, 2]).2.1 = ewmMean 9 (calculate_macd [1, 2]).1 :=
  (C7_macd [1, 2] (by simp)).1.2.1

/-- The indexwise buy/sell counter pair described by the claim: zero before
index 4, then updated by comparing `close[i]` with `close[i-4]`. -/
def tdCounters (close : List ℚ) : ℕ → ℕ × ℕ
  | 0 => (0, 0)
  | 1 => (0, 0)
  | 2 => (0, 0)
  | 3 => (0, 0)
  | n + 4 => tdStep (close.getD (n+4) 0) (close.getD n 0) (tdCounters close (n+3))

theorem td9Go_length (close : List ℚ) (bs : ℕ × ℕ) (l : List ℕ) :
    (td9Go close bs l).length = l.length := by
  induction l generalizing bs with
  | nil => rfl
  | cons i rest ih => simp [td9Go, ih]

/-- The sequential loop started at index `k ≥ 4` with the counters holding
their value after index `k-1` emits `tdEmit (tdCounters close i)` at every
index `i` it visits. -/
theorem td9Go_eq_map (close : List ℚ) (m : ℕ) :
    ∀ (k : ℕ), 4 ≤ k →
      td9Go close (tdCounters close (k-1)) ((List.range m).map (· + k))
        = (List.range m).map (fun j => tdEmit (tdCounters close (j + k))) := by
  induction m with
  | zero => intro k hk; rfl
  | succ m ih =>
    intro k hk
    obtain ⟨n, rfl⟩ : ∃ n, k = n + 4 := ⟨k - 4, by omega⟩
    rw [List.range_succ_eq_map]
    simp only [List.map_cons, List.map_map]
    have hcomp1 : ((fun j => j + (n+4)) ∘ Nat.succ) = (fun j => j + (n+4+1)) := by
      funext j; simp [Function.comp]; omega
    have hcomp2 : ((fun j => tdEmit (tdCounters close (j + (n+4)))) ∘ Nat.succ)
        = (fun j => tdEmit (tdCounters close (j + (n+4+1)))) := by
      funext j
      simp only [Function.comp]
      congr 2
      omega
    rw [hcomp1, hcomp2]
    show td9Go close (tdCounters close (n+4-1)) ((0+(n+4)) :: (List.range m).map (· + (n+4+1)))
        = tdEmit (tdCounters close (0 + (n+4))) :: (List.range m).map
            (fun j => tdEmit (tdCounters close (j + (n+4+1))))
    rw [td9Go]
    have hstate : tdStep (close.getD (0+(n+4)) 0) (close.getD ((0+(n+4)) - 4) 0)
        (tdCounters close (n+4-1)) = tdCounters close (n+4) := by
      have h1 : 0 + (n+4) = n + 4 := by omega
      rw [h1]
      have h2 : n + 4 - 4 = n := by omega
      have h3 : n + 4 - 1 = n + 3 := by omega
      rw [h2, h3]
      rfl
    rw [hstate]
    have htail := ih (n+4+1) (by omega)
    have h4 : n + 4 + 1 - 1 = n + 4 := by omega
    rw [h4] at htail
    rw [htail]
    simp

theorem getD_replicate_zero (n i : ℕ) : (List.replicate n (0:ℤ)).getD i 0 = 0 := by
  induction n generalizing i with
  | zero => simp [List.getD]
  | succ n ih =>
    cases i with
    | zero => rfl
    | succ j => simpa [List.replicate, List.getD_cons_succ] using ih j

/-- C3: `calculate_td9` emits 0 at rows `i < 4`; at rows `i ≥ 4` it emits
`+buy` if the running buy counter is positive, else `-sell` if the running
sell counter is positive, else 0, where the uncapped counters follow the
compare-with-`close[i-4]` recurrence (`tdStep`/`tdCounters`); for closes
`[10,9,8,7,6,5,4,3,2]` the emitted values at indices 4..8 are `[1,2,3,4,5]`. -/
theorem C3_td9 :
    (∀ (close : List ℚ) (i : ℕ), i < close.length →
      ((calculate_td9 close).length = close.length
        ∧ (i < 4 → (calculate_td9 close).getD i 0 = 0)
        ∧ (4 ≤ i → (calculate_td9 close).getD i 0 = tdEmit (tdCounters close i))))
    ∧ calculate_td9 [10,9,8,7,6,5,4,3,2] = [0,0,0,0,1,2,3,4,5] := by
  constructor
  · intro close i hi
    refine ⟨?_, ?_, ?_⟩
    · unfold calculate_td9
      by_cases h5 : close.length < 5
      · simp [h5]
      · simp only [h5, if_false]
        rw [List.length_append, List.length_replicate, td9Go_length,
            List.length_map, List.length_range]
        omega
    · intro h4
      unfold calculate_td9
      by_cases h5 : close.length < 5
      · simp only [h5, if_true]
        exact getD_replicate_zero _ _
      · simp only [h5, if_false]
        rw [List.getD_append _ _ _ _ (by simpa using h4)]
        exact getD_replicate_zero _ _
    · intro h4
      unfold calculate_td9
      by_cases h5 : close.length < 5
      · omega
      · simp only [h5, if_false]
        have hlen : (List.replicate 4 (0:ℤ)).length = 4 := List.length_replicate 4 0
        rw [List.getD_append_right _ _ _ _ (by omega : (List.replicate 4 (0:ℤ)).length ≤ i)]
        rw [hlen]
        have hmap := td9Go_eq_map close (close.length - 4) 4 (by omega)
        have : tdCounters close (4 - 1) = (0, 0) := rfl
        rw [this] at hmap
        rw [hmap]
        rw [getD_map_range _ _ _ (by omega)]
        congr 1
        congr 1
        omega
  · simp [calculate_td9, List.range_succ, td9Go, tdStep, tdEmit]
    norm_num [td9Go, tdStep, tdEmit]

/-- Witness for C3's universally quantified part at the spec's example
series and index 4. -/
theorem C3_td9_witness :
    (calculate_td9 [10,9,8,7,6,5,4,3,2]).length = ([10,9,8,7,6,5,4,3,2] : List ℚ).length :=
  (C3_td9.1 [10,9,8,7,6,5,4,3,2] 4 (by simp)).1

/-!
## Service layer (`app/services/stock_service.py`)

The SQLAlchemy session is explicit state (lists of rows); redis and the
network provider are per-call oracles bundled in `Env`.
-/

/-- A row of the `stock` table (app/models/stock.py lines 6-14). -/
structure Stock where
  code : PyStr
  symbol : PyStr
  name : PyStr
  market : PyStr
  type : PyStr
  update_time : ℕ
deriving DecidableEq, Repr

/-- The payload dict returned by `provider.get_stock_info` (provider.py):
symbol, name, price/open/high/low/volume, market. `open` is a Lean
keyword, hence the field name `opn`. -/
structure ProviderData where
  symbol : PyStr
  name : PyStr
  price : ℚ
  opn : ℚ
  high : ℚ
  low : ℚ
  volume : ℚ
  market : PyStr
deriving DecidableEq, Repr

/-- Outcome of `self.redis.get(cache_key)`: a raised backend exception, a
cached payload (modelled already deserialized), or a miss (`None`). -/
inductive CacheGet
  | err
  | hit (d : ProviderData)
  | miss
deriving DecidableEq, Repr

/-- Outcome of `self.redis.set(...)`: success or a raised backend
exception (which the service catches and only prints). -/
inductive CacheSet
  | ok
  | err
deriving DecidableEq, Repr

/-- The per-call oracles of one service invocation: the redis read and
write outcomes and the provider `get_stock_info` response (`none` means
the provider returned no data). -/
structure Env where
  cacheGet : CacheGet
  cacheSet : CacheSet
  providerInfo : Option ProviderData
deriving DecidableEq, Repr

/-- In-place ORM mutation of the first stock row matching `code`
(stock_service.py lines 61-63): sets `name` and `update_time` only —
the `market` column is not touched on this path. -/
def updateStockFirst (stocks : List Stock) (code nm : PyStr) (now : ℕ) : List Stock :=
  match stocks with
  | [] => []
  | s :: rest =>
    if s.code == code then { s with name := nm, update_time := now } :: rest
    else s :: updateStockFirst rest code nm now

/-- The freshly inserted stock row of stock_service.py lines 52-59: code
and symbol both set to the normalized code, type `"stock"`. -/
def mkNewStock (code nm mkt : PyStr) (now : ℕ) : Stock :=
  { code := code, symbol := code, name := nm, market := mkt,
    type := ['s','t','o','c','k'], update_time := now }

/-- `StockService.get_stock_info` (stock_service.py lines 28-72) over the
stocks table: returns the payload and the new table. A redis error on
`get` is caught and treated as a miss; a redis error on `set` is caught
and ignored, so `env.cacheSet` never influences the result. -/
def get_stock_info (env : Env) (symbol : PyStr) (now : ℕ) (stocks : List Stock) :
    Option ProviderData × List Stock :=
  match env.cacheGet with
  | .hit d => (some d, stocks)
  | _ =>
    match env.providerInfo with
    | none => (none, stocks)
    | some data =>
      match stocks.find? (fun s => s.code == _normalize_code symbol) with
      | none =>
        (some data,
          stocks ++ [mkNewStock (_normalize_code symbol) data.name data.market now])
      | some _ =>
        (some data, updateStockFirst stocks (_normalize_code symbol) data.name now)

/-- C8: a cache backend error on either redis operation is caught and
degraded. When `redis.get` raises, `get_stock_info` still consults the
provider and returns exactly the provider's result, whatever `redis.set`
then does; and when `redis.get` merely misses but `redis.set` raises, the
provider's result is still returned and the set failure is a no-op — the
call behaves identically to one whose `redis.set` succeeds. -/
theorem C8_cache_error_degrades (cs cs2 : CacheSet) (pr : Option ProviderData)
    (symbol : PyStr) (now : ℕ) (stocks : List Stock) :
    (get_stock_info ⟨CacheGet.err, cs, pr⟩ symbol now stocks).1 = pr
    ∧ get_stock_info ⟨CacheGet.err, cs, pr⟩ symbol now stocks
        = get_stock_info ⟨CacheGet.err, cs2, pr⟩ symbol now stocks
    ∧ (get_stock_info ⟨CacheGet.miss, CacheSet.err, pr⟩ symbol now stocks).1 = pr
    ∧ get_stock_info ⟨CacheGet.miss, CacheSet.err, pr⟩ symbol now stocks
        = get_stock_info ⟨CacheGet.miss, cs2, pr⟩ symbol now stocks := by
  refine ⟨?_, rfl, ?_, rfl⟩
  · cases pr with
    | none => rfl
    | some data =>
      unfold get_stock_info
      cases h : stocks.find? (fun s => s.code == _normalize_code symbol) <;> simp [h]
  · cases pr with
    | none => rfl
    | some data =>
      unfold get_stock_info
      cases h : stocks.find? (fun s => s.code == _normalize_code symbol) <;> simp [h]

theorem updateStockFirst_length (stocks : List Stock) (code nm : PyStr) (now : ℕ) :
    (updateStockFirst stocks code nm now).length = stocks.length := by
  induction stocks with
  | nil => rfl
  | cons a rest ih =>
    unfold updateStockFirst
    by_cases hc : (a.code == code) = true
    · rw [if_pos hc]; simp
    · rw [if_neg hc]; simp [ih]

/-- The in-place mutation keeps the row findable under its code and changes
exactly `name` and `update_time`. -/
theorem updateStockFirst_find? (stocks : List Stock) (code nm : PyStr) (now : ℕ)
    (s : Stock) (h : stocks.find? (fun t => t.code == code) = some s) :
    (updateStockFirst stocks code nm now).find? (fun t => t.code == code)
      = some { s with name := nm, update_time := now } := by
  induction stocks with
  | nil => simp [List.find?] at h
  | cons a rest ih =>
    by_cases hc : (a.code == code) = true
    · have hc2 : ((fun t : Stock => t.code == code) a) = true := hc
      rw [List.find?_cons_of_pos (p := fun t : Stock => t.code == code) rest hc2] at h
      injection h with h'
      subst h'
      unfold updateStockFirst
      rw [if_pos hc]
      have hc3 : ((fun t : Stock => t.code == code)
          { a with name := nm, update_time := now }) = true := hc
      exact List.find?_cons_of_pos (p := fun t : Stock => t.code == code) _ hc3
    · have hc2 : ¬ ((fun t : Stock => t.code == code) a) = true := by simpa using hc
      rw [List.find?_cons_of_neg (p := fun t : Stock => t.code == code) rest hc2] at h
      unfold updateStockFirst
      rw [if_neg hc,
          List.find?_cons_of_neg (p := fun t : Stock => t.code == code) _ hc2]
      exact ih h

/-- C2 counterexample: the claim "a subsequent successful fetch updates the
record's name, market and timestamp" is false for `market`. Concrete
input: the store holds a record for code `"AAPL"` with market `"XX"`, the
cache misses, and the provider returns a payload with market `"US"`;
after `get_stock_info` the stored record's market is still `"XX"`, not
`"US"` (stock_service.py lines 61-63 update only name and update_time). -/
theorem C2_market_not_updated_cex :
    ((get_stock_info
        ⟨CacheGet.miss, CacheSet.ok,
          some ⟨['A','A','P','L'], ['A','p','p','l','e'], 0, 0, 0, 0, 0, ['U','S']⟩⟩
        ['A','A','P','L'] 5
        [mkNewStock ['A','A','P','L'] ['A'] ['X','X'] 0]).2.find?
      (fun t => t.code == ['A','A','P','L'])).map Stock.market
      ≠ some ['U','S'] := by
  decide

/-- C2 (amended): for every symbol whose record already exists in the
store, a successful fetch from the provider (cache miss or cache error)
updates the record's `name` and `update_time` in place — the `market`
column is left unchanged — and never deletes the record or changes the
table's size; the provider payload is returned. -/
theorem C2_record_update (env : Env) (symbol : PyStr) (now : ℕ)
    (stocks : List Stock) (data : ProviderData) (s : Stock)
    (hmiss : env.cacheGet = CacheGet.miss ∨ env.cacheGet = CacheGet.err)
    (hprov : env.providerInfo = some data)
    (hfind : stocks.find? (fun t => t.code == _normalize_code symbol) = some s) :
    (get_stock_info env symbol now stocks).1 = some data
    ∧ (get_stock_info env symbol now stocks).2.length = stocks.length
    ∧ (get_stock_info env symbol now stocks).2.find?
        (fun t => t.code == _normalize_code symbol)
      = some { s with name := data.name, update_time := now } := by
  have hred : get_stock_info env symbol now stocks
      = (some data, updateStockFirst stocks (_normalize_code symbol) data.name now) := by
    rcases hmiss with h | h <;> simp [get_stock_info, h, hprov, hfind]
  rw [hred]
  exact ⟨rfl, updateStockFirst_length _ _ _ _,
    updateStockFirst_find? _ _ _ _ _ hfind⟩

/-- Witness for C2 (amended) at the concrete store and payload of the
counterexample. -/
theorem C2_record_update_witness :
    (get_stock_info
        ⟨CacheGet.miss, CacheSet.ok,
          some ⟨['A','A','P','L'], ['A','p','p','l','e'], 0, 0, 0, 0, 0, ['U','S']⟩⟩
        ['A','A','P','L'] 5
        [mkNewStock ['A','A','P','L'] ['A'] ['X','X'] 0]).2.find?
      (fun t => t.code == _normalize_code ['A','A','P','L'])
      = some { mkNewStock ['A','A','P','L'] ['A'] ['X','X'] 0 with
                name := ['A','p','p','l','e'], update_time := 5 } :=
  (C2_record_update _ ['A','A','P','L'] 5 _ _ _
    (Or.inl rfl) rfl (by decide)).2.2

/-- A row of the `price_history` table (app/models/stock.py lines 16-30);
the pair (stock_code, date) carries a unique index. -/
structure PriceRow where
  stock_code : PyStr
  date : PyStr
  opn : ℚ
  high : ℚ
  low : ℚ
  close : ℚ
  volume : ℚ
deriving DecidableEq, Repr

/-- One provider history item: a dict with a canonical `YYYY-MM-DD` date
string and OHLCV floats. -/
structure Bar where
  date : PyStr
  opn : ℚ
  close : ℚ
  high : ℚ
  low : ℚ
  volume : ℚ
deriving DecidableEq, Repr

/-- Python `round` to an integer: nearest, ties to even (banker's
rounding), idealised over ℚ. -/
def roundHalfEven (q : ℚ) : ℤ :=
  if q - ⌊q⌋ < 1/2 then ⌊q⌋
  else if 1/2 < q - ⌊q⌋ then ⌊q⌋ + 1
  else if ⌊q⌋ % 2 = 0 then ⌊q⌋ else ⌊q⌋ + 1

/-- Python `round(x, 3)` idealised over ℚ. -/
def pyRound3 (q : ℚ) : ℚ :=
  (roundHalfEven (q * 1000) : ℚ) / 1000

/-- The write-through body of `get_price_history` for one fetched item
(stock_service.py lines 117-134): insert a bar only when no row with the
same (stock_code, date) exists; an existing row is left untouched. -/
def upsertBar (prices : List PriceRow) (code : PyStr) (item : Bar) : List PriceRow :=
  if (prices.find? (fun r => r.stock_code == code && r.date == item.date)).isSome then
    prices
  else
    prices ++ [{ stock_code := code, date := item.date, opn := item.opn,
                 high := item.high, low := item.low, close := item.close,
                 volume := item.volume }]

theorem find?_append_of_none {α : Type} (p : α → Bool) (l1 l2 : List α)
    (h : l1.find? p = none) : (l1 ++ l2).find? p = l2.find? p := by
  induction l1 with
  | nil => rfl
  | cons a t ih =>
    rw [List.find?_cons] at h
    cases hp : p a with
    | true => rw [hp] at h; simp at h
    | false =>
      rw [hp] at h
      rw [List.cons_append, List.find?_cons, hp]
      exact ih h

theorem upsertBar_of_isSome (ps : List PriceRow) (code : PyStr) (item : Bar)
    (h : (ps.find? (fun r => r.stock_code == code && r.date == item.date)).isSome
      = true) : upsertBar ps code item = ps := by
  unfold upsertBar
  rw [if_pos h]

/-- C4: a price bar whose (stock_code, trading_date) pair already has a
row is never overwritten by the write-through path, and upserting the
same pair twice into a store without it leaves exactly one row for that
pair, carrying the first write's values. -/
theorem C4_upsertBar_first_write_wins :
    (∀ (ps : List PriceRow) (code : PyStr) (item : Bar),
        (ps.find? (fun r => r.stock_code == code && r.date == item.date)).isSome = true →
        upsertBar ps code item = ps)
    ∧ ∀ (ps : List PriceRow) (code : PyStr) (b1 b2 : Bar),
        b2.date = b1.date →
        ps.find? (fun r => r.stock_code == code && r.date == b1.date) = none →
        (upsertBar (upsertBar ps code b1) code b2).filter
            (fun r => r.stock_code == code && r.date == b1.date)
          = [{ stock_code := code, date := b1.date, opn := b1.opn,
               high := b1.high, low := b1.low, close := b1.close,
               volume := b1.volume }] := by
  constructor
  · exact upsertBar_of_isSome
  · intro ps code b1 b2 hdate habs
    have hrow : ((fun r : PriceRow => r.stock_code == code && r.date == b1.date)
        { stock_code := code, date := b1.date, opn := b1.opn,
          high := b1.high, low := b1.low, close := b1.close,
          volume := b1.volume }) = true := by simp
    have h1 : upsertBar ps code b1
        = ps ++ [{ stock_code := code, date := b1.date, opn := b1.opn,
                   high := b1.high, low := b1.low, close := b1.close,
                   volume := b1.volume }] := by
      unfold upsertBar
      rw [habs]
      rfl
    have hfind2 : ((upsertBar ps code b1).find?
        (fun r => r.stock_code == code && r.date == b2.date)).isSome = true := by
      rw [h1, hdate, find?_append_of_none _ _ _ habs]
      simp [List.find?]
    have h2 : upsertBar (upsertBar ps code b1) code b2 = upsertBar ps code b1 :=
      upsertBar_of_isSome _ _ _ hfind2
    rw [h2, h1, List.filter_append]
    have hnil : ps.filter (fun r => r.stock_code == code && r.date == b1.date) = [] := by
      rw [List.filter_eq_nil_iff]
      intro a ha
      have := List.find?_eq_none.mp habs a ha
      simpa using this
    rw [hnil, List.nil_append]
    simp [List.filter, hrow]

/-- Witness for C4 at a concrete store: one upsert into an empty store
followed by a second upsert of a different bar for the same pair. -/
theorem C4_upsertBar_witness :
    (upsertBar (upsertBar [] ['A'] ⟨['d'], 1, 2, 3, 4, 5⟩) ['A']
        ⟨['d'], 9, 9, 9, 9, 9⟩).filter
      (fun r => r.stock_code == ['A'] && r.date == ['d'])
      = [{ stock_code := ['A'], date := ['d'], opn := 1,
           high := 3, low := 4, close := 2, volume := 5 }] :=
  C4_upsertBar_first_write_wins.2 [] ['A'] ⟨['d'], 1, 2, 3, 4, 5⟩
    ⟨['d'], 9, 9, 9, 9, 9⟩ rfl rfl

/-- The database state seen by `get_price_history`: the stocks table and
the price_history table. -/
structure DBState where
  stocks : List Stock
  prices : List PriceRow
deriving DecidableEq, Repr

/-- `StockService.get_price_history` (stock_service.py lines 74-141).
The DB-first lookup returns the stored row with open/close/high/low
rounded to 3 decimals; on a miss the provider batch (`histData`, the
result of the ±10-day range fetch, whose date-string arithmetic only
feeds the provider call) is persisted through `upsertBar` — but only when
a stock row exists or `get_stock_info` manages to create one — and the
item matching the requested date string is returned. -/
def get_price_history (env : Env) (histData : List Bar) (symbol date : PyStr)
    (now : ℕ) (db : DBState) : Option Bar × DBState :=
  match db.stocks.find? (fun s => s.code == _normalize_code symbol) with
  | some s =>
    match db.prices.find? (fun r => r.stock_code == s.code && r.date == date) with
    | some r =>
      (some { date := r.date, opn := pyRound3 r.opn, close := pyRound3 r.close,
              high := pyRound3 r.high, low := pyRound3 r.low, volume := r.volume },
        db)
    | none =>
      (histData.find? (fun item => item.date == date),
        if histData.isEmpty then db
        else { stocks := db.stocks,
               prices := histData.foldl (fun ps item => upsertBar ps s.code item)
                 db.prices })
  | none =>
    (histData.find? (fun item => item.date == date),
      if histData.isEmpty then db
      else
        match (get_stock_info env symbol now db.stocks).2.find?
            (fun s => s.code == _normalize_code symbol) with
        | some s =>
          { stocks := (get_stock_info env symbol now db.stocks).2,
            prices := histData.foldl (fun ps item => upsertBar ps s.code item)
              db.prices }
        | none =>
          { stocks := (get_stock_info env symbol now db.stocks).2,
            prices := db.prices })

/-- When `get_stock_info` returns no payload it also leaves the stocks
table unchanged. -/
theorem get_stock_info_none_state (env : Env) (symbol : PyStr) (now : ℕ)
    (stocks : List Stock)
    (h : (get_stock_info env symbol now stocks).1 = none) :
    (get_stock_info env symbol now stocks).2 = stocks := by
  unfold get_stock_info at h ⊢
  cases hcg : env.cacheGet with
  | hit d => simp [hcg] at h
  | miss =>
    cases hp : env.providerInfo with
    | none => rfl
    | some data =>
      cases hf : stocks.find? (fun s => s.code == _normalize_code symbol) <;>
        simp [hcg, hp, hf] at h
  | err =>
    cases hp : env.providerInfo with
    | none => rfl
    | some data =>
      cases hf : stocks.find? (fun s => s.code == _normalize_code symbol) <;>
        simp [hcg, hp, hf] at h

/-- C10: when the requested symbol has no stock row, the fetched batch is
non-empty, and `get_stock_info` cannot create a record (it returns
absent), `get_price_history` persists nothing — the database is returned
unchanged — yet still returns the batch item matching the requested date
when one exists; a successful result does not imply write-through. -/
theorem C10_success_without_write_through (env : Env) (histData : List Bar)
    (symbol date : PyStr) (now : ℕ) (db : DBState)
    (hstock : db.stocks.find? (fun s => s.code == _normalize_code symbol) = none)
    (hne : histData ≠ [])
    (habsent : (get_stock_info env symbol now db.stocks).1 = none) :
    get_price_history env histData symbol date now db
      = (histData.find? (fun item => item.date == date), db) := by
  have hstate := get_stock_info_none_state env symbol now db.stocks habsent
  unfold get_price_history
  rw [hstock, hstate, hstock]
  have hempty : histData.isEmpty = false := by
    cases histData with
    | nil => exact absurd rfl hne
    | cons b t => rfl
  rw [hempty]
  simp only [Bool.false_eq_true, if_false]

/-- Witness for C10: a batch of one bar for the requested date, an empty
database, and a provider that returns no info payload. -/
theorem C10_success_without_write_through_witness :
    get_price_history ⟨CacheGet.miss, CacheSet.ok, none⟩
        [⟨['d'], 1, 2, 3, 4, 5⟩] ['A'] ['d'] 0 ⟨[], []⟩
      = (some ⟨['d'], 1, 2, 3, 4, 5⟩, ⟨[], []⟩) := by
  have h := C10_success_without_write_through ⟨CacheGet.miss, CacheSet.ok, none⟩
    [⟨['d'], 1, 2, 3, 4, 5⟩] ['A'] ['d'] 0 ⟨[], []⟩ rfl (by simp) rfl
  rw [h]
  rfl

/-- The provider families of provider.py; the factory decides between
them. -/
inductive Provider
  | akshare
  | yfinance
deriving DecidableEq, Repr

/-- `DataProviderFactory.get_provider` (provider.py lines 415-418): always
the YFinance provider for price/info, whatever the symbol. -/
def DataProviderFactory.get_provider (symbol : PyStr) : Provider :=
  Provider.yfinance

/-- `StockService.batch_get_prices` (stock_service.py lines 197-205):
selects one provider from `symbols[0]` — an `IndexError` (modelled as
`none`) on the empty list — and passes the whole symbol list to that
provider's batch call, here the oracle `batchInfo`. -/
def batch_get_prices (batchInfo : Provider → List PyStr → List ProviderData)
    (symbols : List PyStr) : Option (List ProviderData) :=
  match symbols with
  | [] => none
  | s0 :: _ =>
    some (batchInfo (DataProviderFactory.get_provider s0) symbols)

/-- C9: `batch_get_prices` raises (returns `none`) on the empty symbol
list because it indexes `symbols[0]`, and on every non-empty list the
single provider chosen from the first symbol handles the entire batch. -/
theorem C9_batch_first_symbol_provider
    (batchInfo : Provider → List PyStr → List ProviderData) :
    batch_get_prices batchInfo [] = none
    ∧ ∀ (s0 : PyStr) (rest : List PyStr),
        batch_get_prices batchInfo (s0 :: rest)
          = some (batchInfo (DataProviderFactory.get_provider s0) (s0 :: rest)) :=
  ⟨rfl, fun _ _ => rfl⟩

/-- A provider history bar for the indicator pipeline. The date is an
integer day number: ISO `YYYY-MM-DD` strings compare lexicographically
exactly as day numbers do, and `timedelta(days=250)` is subtraction. -/
structure RawBar where
  date : ℤ
  opn : ℚ
  close : ℚ
  high : ℚ
  low : ℚ
  volume : ℚ
deriving DecidableEq, Repr

/-- One output row of `get_stock_price_with_indicators`: raw OHLCV plus
every computed indicator column (`none` = NaN, replaced by `None` in the
source before returning). -/
structure IndRow where
  date : ℤ
  opn : ℚ
  close : ℚ
  high : ℚ
  low : ℚ
  volume : ℚ
  ma5 : Option ℚ
  ma20 : Option ℚ
  ma50 : Option ℚ
  ma120 : Option ℚ
  dif : ℚ
  dea : ℚ
  macd : ℚ
  mid : Option ℚ
  upper : Option ℚ
  lower : Option ℚ
  td9 : ℤ
deriving DecidableEq, Repr

/-- Steps 3-4 of `get_stock_price_with_indicators` (stock_service.py lines
226-250): build the DataFrame and attach the ma5/ma20/ma50/ma120, MACD,
Bollinger and td9 columns, all computed over the full fetched series. -/
def computeIndicators (sqrtQ : ℚ → ℚ) (raw : List RawBar) : List IndRow :=
  let close := raw.map (fun b => b.close)
  let m := calculate_macd close
  let b := calculate_boll sqrtQ close 20 2
  let td := calculate_td9 close
  (List.range raw.length).map (fun i =>
    { date := (raw.getD i ⟨0,0,0,0,0,0⟩).date,
      opn := (raw.getD i ⟨0,0,0,0,0,0⟩).opn,
      close := (raw.getD i ⟨0,0,0,0,0,0⟩).close,
      high := (raw.getD i ⟨0,0,0,0,0,0⟩).high,
      low := (raw.getD i ⟨0,0,0,0,0,0⟩).low,
      volume := (raw.getD i ⟨0,0,0,0,0,0⟩).volume,
      ma5 := (calculate_ma close 5).getD i none,
      ma20 := (calculate_ma close 20).getD i none,
      ma50 := (calculate_ma close 50).getD i none,
      ma120 := (calculate_ma close 120).getD i none,
      dif := m.1.getD i 0,
      dea := m.2.1.getD i 0,
      macd := m.2.2.getD i 0,
      mid := b.1.getD i none,
      upper := b.2.1.getD i none,
      lower := b.2.2.getD i none,
      td9 := td.getD i 0 })

/-- `round(x, 3) if x is not None else None` of stock_service.py line 265. -/
def roundOpt (x : Option ℚ) : Option ℚ :=
  x.map pyRound3

/-- Step 6 of `get_stock_price_with_indicators` (lines 257-265): round the
float indicator columns of one row to 3 decimals; raw OHLCV and the date
are untouched. -/
def roundIndRow (r : IndRow) : IndRow :=
  { r with ma5 := roundOpt r.ma5, ma20 := roundOpt r.ma20,
           ma50 := roundOpt r.ma50, ma120 := roundOpt r.ma120,
           dif := pyRound3 r.dif, dea := pyRound3 r.dea,
           macd := pyRound3 r.macd, mid := roundOpt r.mid,
           upper := roundOpt r.upper, lower := roundOpt r.lower }

/-- `StockService.get_stock_price_with_indicators` (stock_service.py lines
207-267): fetch the provider range `[start_date - 250 days, end_date]`,
compute all indicator columns over the full fetched series, filter rows to
`[start_date, end_date]` inclusive, and round for presentation. The
provider history call is the oracle `providerHistory` (the symbol argument
only selects the provider in the source). -/
def get_stock_price_with_indicators (sqrtQ : ℚ → ℚ)
    (providerHistory : ℤ → ℤ → List RawBar) (start_date end_date : ℤ) :
    List IndRow :=
  let raw_data := providerHistory (start_date - 250) end_date
  if raw_data.isEmpty then []
  else
    ((computeIndicators sqrtQ raw_data).filter
        (fun r => start_date ≤ r.date && r.date ≤ end_date)).map roundIndRow

/-- C5: the indicator query fetches the expanded provider range
`[start_date - 250, end_date]`, runs the indicator engine over the full
fetched series, and every returned row's date lies within
`[start_date, end_date]` inclusive. -/
theorem C5_indicator_range (sqrtQ : ℚ → ℚ)
    (providerHistory : ℤ → ℤ → List RawBar) (start_date end_date : ℤ) :
    get_stock_price_with_indicators sqrtQ providerHistory start_date end_date
      = ((computeIndicators sqrtQ (providerHistory (start_date - 250) end_date)).filter
          (fun r => start_date ≤ r.date && r.date ≤ end_date)).map roundIndRow
    ∧ ∀ r ∈ get_stock_price_with_indicators sqrtQ providerHistory start_date end_date,
        start_date ≤ r.date ∧ r.date ≤ end_date := by
  have heq : get_stock_price_with_indicators sqrtQ providerHistory start_date end_date
      = ((computeIndicators sqrtQ (providerHistory (start_date - 250) end_date)).filter
          (fun r => start_date ≤ r.date && r.date ≤ end_date)).map roundIndRow := by
    unfold get_stock_price_with_indicators
    cases hraw : providerHistory (start_date - 250) end_date with
    | nil => rfl
    | cons b t => rfl
  refine ⟨heq, ?_⟩
  intro r hr
  rw [heq] at hr
  obtain ⟨r', hr', hround⟩ := List.mem_map.mp hr
  have hpred := List.of_mem_filter hr'
  have hdate : r.date = r'.date := by rw [← hround]; rfl
  rw [hdate]
  have := Bool.and_eq_true _ _ |>.mp hpred
  exact ⟨by exact_mod_cast of_decide_eq_true this.1,
         by exact_mod_cast of_decide_eq_true this.2⟩

/-- Witness for C5 at a concrete provider and range. -/
theorem C5_indicator_range_witness :
    get_stock_price_with_indicators (fun q => q)
        (fun _ _ => ([] : List RawBar)) 0 10
      = ((computeIndicators (fun q => q) ([] : List RawBar)).filter
          (fun r => (0:ℤ) ≤ r.date && r.date ≤ 10)).map roundIndRow :=
  (C5_indicator_range (fun q => q) (fun _ _ => ([] : List RawBar)) 0 10).1
